import Mathlib

/-!
Verification development for the Noteflow ingestion-and-retrieval core
(`src/backend/src/services/documentProcessor.js`,
`src/backend/src/services/vectorService.js`,
`src/backend/src/services/aiService.js`).

Modelling conventions:
* JavaScript strings that the algorithms index into character by character are
  modelled as `List Char`; atomic labels (document ids, level names, error
  messages) are modelled as `String`.
* JavaScript numbers are modelled exactly (`ℚ` where the code only adds,
  multiplies and divides rationals; `ℝ` where `Math.sqrt` appears).  The
  special values produced by division by zero are modelled by the `JsNum`
  carrier (`nan`, `inf`, `negInf`, `num x`).
* External collaborators (the `natural` sentence/word tokenizers, the Gemini
  HTTP endpoints, the file-system/parser strategies) are modelled as explicit
  oracle parameters: the functions under verification receive the
  collaborator's answer (or its failure) as an argument.
* Thrown-and-caught JavaScript errors are modelled with `Except`.
-/

/-- Whitespace predicate used to model JavaScript `String.prototype.trim`. -/
def isJsWs (c : Char) : Bool :=
  c = ' ' || c = '\t' || c = '\n' || c = '\r' || c = '\x0b' || c = '\x0c'

/-- Model of JavaScript `s.trim()` on a `List Char` string. -/
def jsTrim (s : List Char) : List Char :=
  (((s.dropWhile isJsWs).reverse).dropWhile isJsWs).reverse

mutual

/-- Splitting worker for `jsSplitWs`: `cur` is the reversed piece read so
far; a whitespace character closes the piece and hands over to the
run-skipping worker. -/
def jsSplitWsAux : List Char → List Char → List (List Char)
  | [], cur => [cur.reverse]
  | c :: rest, cur =>
    if isJsWs c then cur.reverse :: jsSplitWsSkip rest
    else jsSplitWsAux rest (c :: cur)

/-- Run-skipping worker for `jsSplitWs`: consumes the remainder of a
whitespace run, then starts the next piece. -/
def jsSplitWsSkip : List Char → List (List Char)
  | [] => [[]]
  | c :: rest =>
    if isJsWs c then jsSplitWsSkip rest
    else jsSplitWsAux rest [c]

end

/-- Model of JavaScript `s.split(/\s+/)`: split on maximal whitespace runs,
keeping the empty piece that JavaScript produces before a leading run and
after a trailing run. -/
def jsSplitWs (s : List Char) : List (List Char) :=
  jsSplitWsAux s []

/-- Model of JavaScript `Math.round` (round half toward positive infinity). -/
def jsRound (q : ℚ) : Int :=
  ⌊q + 1 / 2⌋

/-! ## Chunker (`documentProcessor.js`, `chunkText` / `getOverlapText`) -/

/-- Chunk record produced by `chunkText` (`documentProcessor.js:201-207`):
`content` is the trimmed buffer, `start`/`end_`/`length` are the recorded
offsets, `sentences` the count of non-blank `[.!?]+`-separated pieces. -/
structure Chunk where
  content : List Char
  start : Nat
  end_ : Nat
  length : Nat
  sentences : Nat
deriving DecidableEq, Repr

/-- Model of the `currentChunk.split(/[.!?]+/).filter(s => s.trim().length > 0).length`
expression: splitting on single separator characters and then discarding blank
pieces counts the same pieces as splitting on separator runs. -/
def countSentencePieces (s : List Char) : Nat :=
  ((s.splitOnP (fun c => c = '.' || c = '!' || c = '?')).filter
    (fun p => (jsTrim p).length > 0)).length

/-- Record pushed by `chunkText` for the raw buffer `cc` starting at the
recorded offset `st`. -/
def mkChunk (cc : List Char) (st : Nat) : Chunk :=
  { content := jsTrim cc
    start := st
    end_ := st + cc.length
    length := cc.length
    sentences := countSentencePieces cc }

/-- Model of `getOverlapText(text, overlapSize)` (`documentProcessor.js:241-253`).
`text.slice(-overlapSize)` keeps the whole string when `overlapSize = 0`
(JavaScript `slice(-0)` is `slice(0)`); `indexOf(' ')` is modelled by
`List.indexOf`, which returns the length when no space occurs, so the
JavaScript test `firstSpace > 0` becomes `0 < i ∧ i < length`. -/
def getOverlapText (text : List Char) (overlapSize : Nat) : List Char :=
  if text.length ≤ overlapSize then text
  else
    let overlapText := if overlapSize = 0 then text
      else text.drop (text.length - overlapSize)
    let firstSpace := overlapText.indexOf ' '
    if 0 < firstSpace ∧ firstSpace < overlapText.length then
      overlapText.drop (firstSpace + 1)
    else overlapText

/-- Loop of `chunkText` (`documentProcessor.js:196-227`): processes the
remaining sentences with the running buffer `currentChunk` and recorded start
offset `chunkStart`; the trailing non-blank buffer is emitted as a final
chunk. -/
def chunkTextLoop (chunkSize overlap : Nat) :
    List (List Char) → List Char → Nat → List Chunk
  | [], currentChunk, chunkStart =>
    if (jsTrim currentChunk).length > 0 then [mkChunk currentChunk chunkStart]
    else []
  | s :: rest, currentChunk, chunkStart =>
    if currentChunk.length + s.length > chunkSize ∧ currentChunk.length > 0 then
      let o := getOverlapText currentChunk overlap
      let cc := o ++ s
      mkChunk currentChunk chunkStart ::
        chunkTextLoop chunkSize overlap rest cc
          (chunkStart + cc.length - o.length - s.length)
    else
      chunkTextLoop chunkSize overlap rest (currentChunk ++ s) chunkStart

/-- Model of `chunkText(text, chunkSize = 1000, overlap = 200)`
(`documentProcessor.js:185-231`).  `sentTok` is the external
`natural.SentenceTokenizer` used by `splitIntoSentences`, supplied as an
oracle. -/
def chunkText (sentTok : List Char → List (List Char)) (text : List Char)
    (chunkSize : Nat := 1000) (overlap : Nat := 200) : List Chunk :=
  chunkTextLoop chunkSize overlap (sentTok text) [] 0

/-- Instrumented chunk used to reason about `chunkText`: `raw` is the
untrimmed buffer that was closed, `seedLen` the length of the overlap seed the
buffer started with, `start` the recorded start offset. -/
structure AuxChunk where
  raw : List Char
  seedLen : Nat
  start : Nat
deriving DecidableEq, Repr

/-- Instrumented version of the `chunkText` loop.  It tracks, alongside the
records of `chunkTextLoop`, the untrimmed buffer and its overlap-seed length,
and returns the final unemitted buffer together with its seed length.  The
recorded start offset is passed through unchanged because the source update
`chunkStart = chunkStart + currentChunk.length - overlapText.length - sentence.length`
is arithmetically the identity. -/
def chunkTextAuxLoop (chunkSize overlap : Nat) :
    List (List Char) → List Char → Nat → Nat → (List AuxChunk × List Char × Nat)
  | [], currentChunk, seedLen, chunkStart =>
    if (jsTrim currentChunk).length > 0 then
      ([⟨currentChunk, seedLen, chunkStart⟩], [], 0)
    else ([], currentChunk, seedLen)
  | s :: rest, currentChunk, seedLen, chunkStart =>
    if currentChunk.length + s.length > chunkSize ∧ currentChunk.length > 0 then
      let o := getOverlapText currentChunk overlap
      let r := chunkTextAuxLoop chunkSize overlap rest (o ++ s) o.length chunkStart
      (⟨currentChunk, seedLen, chunkStart⟩ :: r.1, r.2)
    else
      chunkTextAuxLoop chunkSize overlap rest (currentChunk ++ s) seedLen chunkStart

/-- Instrumented `chunkText`: the emitted chunks with raw buffers and overlap
seeds, plus the discarded (blank) trailing buffer with its seed length. -/
def chunkTextAux (sentTok : List Char → List (List Char)) (text : List Char)
    (chunkSize : Nat := 1000) (overlap : Nat := 200) :
    List AuxChunk × List Char × Nat :=
  chunkTextAuxLoop chunkSize overlap (sentTok text) [] 0 0

/-- The non-overlap remainder of an instrumented chunk: its raw buffer with
the overlap seed dropped. -/
def dropSeed (a : AuxChunk) : List Char :=
  a.raw.drop a.seedLen

/-- Relation between consecutive instrumented chunks: the later chunk's
overlap seed is exactly the overlap text computed from the earlier chunk's
raw buffer. -/
def seedRel (overlap : Nat) (a b : AuxChunk) : Prop :=
  b.raw.take b.seedLen = getOverlapText a.raw overlap

/-! ## Metadata analyzer (`documentProcessor.js`) -/

/-- Vowel test `'aeiouy'.includes(word[i])` from `countSyllables`. -/
def isVowelChar (c : Char) : Bool :=
  c = 'a' || c = 'e' || c = 'i' || c = 'o' || c = 'u' || c = 'y'

/-- Vowel-group counting loop of `countSyllables`
(`documentProcessor.js:578-584`): counts characters that are vowels whose
predecessor is not a vowel. -/
def countVowelGroups (w : List Char) : Nat :=
  (w.foldl
    (fun (acc : Nat × Bool) c =>
      let v := isVowelChar c
      (if v && !acc.2 then acc.1 + 1 else acc.1, v))
    (0, false)).1

/-- Model of `countSyllables(word)` (`documentProcessor.js:571-592`). -/
def countSyllables (word : List Char) : Nat :=
  let w := word.map Char.toLower
  if w.length ≤ 3 then 1
  else
    let syllables := countVowelGroups w
    let syllables :=
      if w.getLast? = some 'e' ∧ syllables > 1 then syllables - 1 else syllables
    max 1 syllables

/-- Readability record returned by `calculateReadability`
(`documentProcessor.js:558-563`). -/
structure Readability where
  score : Int
  level : String
  avgWordsPerSentence : Int
  avgSyllablesPerWord : ℚ
deriving DecidableEq, Repr

/-- Model of `calculateReadability(text)` (`documentProcessor.js:534-568`).
`sentTok` is the external sentence tokenizer.  The two averages are exact
rational quotients; the claims about this function are stated under the
hypothesis that both denominators are non-zero, which is where the model and
the JavaScript float semantics agree.  `Math.round(x * 100) / 100` becomes
`jsRound (x * 100) / 100`. -/
def calculateReadability (sentTok : List Char → List (List Char))
    (text : List Char) : Readability :=
  let sentences := sentTok text
  let words := (jsSplitWs text).filter (fun w => w.length > 0)
  let syllables := (words.map countSyllables).sum
  let avgWordsPerSentence : ℚ := (words.length : ℚ) / (sentences.length : ℚ)
  let avgSyllablesPerWord : ℚ := (syllables : ℚ) / (words.length : ℚ)
  let fleschScore : ℚ :=
    206.835 - 1.015 * avgWordsPerSentence - 84.6 * avgSyllablesPerWord
  let level : String :=
    if fleschScore ≥ 90 then "Very Easy"
    else if fleschScore ≥ 80 then "Easy"
    else if fleschScore ≥ 70 then "Fairly Easy"
    else if fleschScore ≥ 60 then "Standard"
    else if fleschScore ≥ 50 then "Fairly Difficult"
    else if fleschScore ≥ 30 then "Difficult"
    else "Very Difficult"
  { score := jsRound fleschScore
    level := level
    avgWordsPerSentence := jsRound avgWordsPerSentence
    avgSyllablesPerWord := (jsRound (avgSyllablesPerWord * 100) : ℚ) / 100 }

/-- Keyword record: free extraction produces `{word, count}`, the Gemini path
adds `source: 'gemini'`. -/
structure Keyword where
  word : List Char
  count : Nat
  source : Option String
deriving DecidableEq, Repr

/-- Stop-word set of `extractKeywords` (`documentProcessor.js:327`). -/
def stopWords : List (List Char) :=
  ["the".toList, "a".toList, "an".toList, "and".toList, "or".toList,
   "but".toList, "in".toList, "on".toList, "at".toList, "to".toList,
   "for".toList, "of".toList, "with".toList, "by".toList, "is".toList,
   "are".toList, "was".toList, "were".toList, "be".toList, "been".toList,
   "have".toList, "has".toList, "had".toList, "do".toList, "does".toList,
   "did".toList, "will".toList, "would".toList, "could".toList,
   "should".toList, "may".toList, "might".toList, "must".toList,
   "can".toList, "this".toList, "that".toList, "these".toList,
   "those".toList]

/-- Word-frequency accumulation of `extractKeywords`
(`documentProcessor.js:336-339`): an association list in first-occurrence
order, matching `Object.entries` insertion order for the non-numeric keys that
survive the filter. -/
def countOcc (l : List (List Char)) : List (List Char × Nat) :=
  l.foldl
    (fun acc w =>
      if acc.any (fun p => p.1 == w) then
        acc.map (fun p => if p.1 == w then (p.1, p.2 + 1) else p)
      else acc ++ [(w, 1)])
    []

/-- Stable insertion of `x` into `l`, keeping every `y` with `le y x = true`
before `x`: models the order produced by the (stable) JavaScript
`Array.prototype.sort` run with a comparator. -/
def insertOrd (le : α → α → Bool) (x : α) : List α → List α
  | [] => [x]
  | y :: ys => if le y x then y :: insertOrd le x ys else x :: y :: ys

/-- Stable sort by repeated `insertOrd`; `le a b` means "a may stay before b"
under the JavaScript comparator semantics. -/
def sortOrd (le : α → α → Bool) : List α → List α
  | [] => []
  | x :: xs => insertOrd le x (sortOrd le xs)

/-- Model of `extractKeywords(text, maxKeywords = 10)`
(`documentProcessor.js:318-353`).  `wordTok` is the external
`natural.WordTokenizer`.  The comparator `([,a],[b]) => b - a` keeps `p`
before `q` exactly when `q.2 ≤ p.2`. -/
def extractKeywords (wordTok : List Char → List (List Char)) (text : List Char)
    (maxKeywords : Nat := 10) : List Keyword :=
  let tokens := wordTok (text.map Char.toLower)
  let filteredTokens := tokens.filter
    (fun t => t.length > 2 && !stopWords.contains t && !t.all Char.isDigit)
  let wordCount := countOcc filteredTokens
  ((sortOrd (fun p q => decide (q.2 ≤ p.2)) wordCount).take maxKeywords).map
    (fun p => { word := p.1, count := p.2, source := none })

/-- Model of `generateSummary(text, maxSentences = 3)`
(`documentProcessor.js:356-376`): the first `maxSentences` sentences joined
with a single space, or the whole text when there are at most `maxSentences`
sentences. -/
def generateSummary (sentTok : List Char → List (List Char)) (text : List Char)
    (maxSentences : Nat := 3) : List Char :=
  let sentences := sentTok text
  if sentences.length ≤ maxSentences then text
  else List.intercalate [' '] (sentences.take maxSentences)

/-- Subject table of `extractSubject` (`documentProcessor.js:501-508`). -/
def subjectKeywords : List (List Char × List (List Char)) :=
  [("mathematics".toList,
    ["math".toList, "algebra".toList, "calculus".toList, "geometry".toList,
     "equation".toList, "formula".toList, "number".toList, "solve".toList]),
   ("science".toList,
    ["science".toList, "biology".toList, "chemistry".toList, "physics".toList,
     "experiment".toList, "research".toList, "theory".toList,
     "hypothesis".toList]),
   ("history".toList,
    ["history".toList, "historical".toList, "ancient".toList,
     "century".toList, "war".toList, "battle".toList, "empire".toList,
     "civilization".toList]),
   ("literature".toList,
    ["literature".toList, "novel".toList, "poetry".toList, "author".toList,
     "character".toList, "plot".toList, "theme".toList, "writing".toList]),
   ("technology".toList,
    ["technology".toList, "computer".toList, "software".toList,
     "programming".toList, "digital".toList, "internet".toList,
     "data".toList, "system".toList]),
   ("business".toList,
    ["business".toList, "management".toList, "marketing".toList,
     "finance".toList, "economy".toList, "company".toList, "strategy".toList,
     "profit".toList])]

/-- Starts-with test on character lists (`needle` then the haystack). -/
def startsWithSeq : List Char → List Char → Bool
  | [], _ => true
  | _ :: _, [] => false
  | a :: as, b :: bs => a == b && startsWithSeq as bs

/-- Model of JavaScript `hay.includes(needle)` on character lists. -/
def includesSeq (needle : List Char) : List Char → Bool
  | [] => needle.isEmpty
  | c :: rest => startsWithSeq needle (c :: rest) || includesSeq needle rest

/-- Capitalisation `subject.charAt(0).toUpperCase() + subject.slice(1)`. -/
def capitalizeFirst : List Char → List Char
  | [] => []
  | c :: rest => c.toUpper :: rest

/-- Model of `extractSubject(text)` (`documentProcessor.js:493-531`): score
each subject by the number of its keywords occurring in the lowercased text
and keep the first strict maximiser, defaulting to `"General"`. -/
def extractSubject (wordTok : List Char → List (List Char))
    (text : List Char) : List Char :=
  let _keywords := extractKeywords wordTok text 5
  let textLower := text.map Char.toLower
  (subjectKeywords.foldl
    (fun (best : List Char × Nat) entry =>
      let score := (entry.2.filter (fun k => includesSeq k textLower)).length
      if score > best.2 then (capitalizeFirst entry.1, score) else best)
    ("General".toList, 0)).1

/-- English word list of `detectLanguage` (`documentProcessor.js:610`). -/
def englishWords : List (List Char) := stopWords

/-- Model of the static `detectLanguage(text)`
(`documentProcessor.js:605-621`): the English-word ratio test
`englishCount > words.length * 0.1` over the unfiltered `split(/\s+/)`
pieces. -/
def detectLanguage (text : List Char) : String :=
  let words := jsSplitWs (text.map Char.toLower)
  let englishCount := (words.filter (fun w => englishWords.contains w)).length
  if (englishCount : ℚ) > (words.length : ℚ) * (1 / 10) then "en"
  else "unknown"

/-! ## Vector store fallback (`vectorService.js`) -/

/-- Carrier for the result of JavaScript floating-point division: a finite
number, positive/negative infinity, or NaN. -/
inductive JsNum where
  | nan : JsNum
  | inf : JsNum
  | negInf : JsNum
  | num : ℝ → JsNum

/-- Model of JavaScript division `x / y` on exact reals: division by zero
produces NaN (for `0 / 0`) or a signed infinity, never a finite number. -/
noncomputable def jsDiv (x y : ℝ) : JsNum :=
  if y = 0 then
    if x = 0 then .nan else if 0 < x then .inf else .negInf
  else .num (x / y)

/-- Model of `cosineSimilarity(vecA, vecB)` (`vectorService.js:191-205`):
`0` on a length mismatch, otherwise
`dotProduct / (Math.sqrt(normA) * Math.sqrt(normB))` with no zero guard. -/
noncomputable def cosineSimilarity (vecA vecB : List ℝ) : JsNum :=
  if vecA.length ≠ vecB.length then .num 0
  else
    let dotProduct := (List.zipWith (· * ·) vecA vecB).sum
    let normA := (vecA.map (fun x => x * x)).sum
    let normB := (vecB.map (fun x => x * x)).sum
    jsDiv dotProduct (Real.sqrt normA * Real.sqrt normB)

/-- Record held in the in-memory fallback store
(`vectorService.js:149-157`): the stored content, the chunk's embedding
(`null` for degraded chunks), and the flattened metadata fields the search
path reads. -/
structure FallbackRecord where
  content : String
  embedding : Option (List ℝ)
  document_id : String
  chunk_index : Nat

/-- The fallback store: the `Map` from document id to records, modelled as an
association list in insertion order. -/
abbrev FallbackStore := List (String × List FallbackRecord)

/-- Truthiness filter of `if (documentId && docId !== documentId) continue;`
(`vectorService.js:169`): an entry with key `k` is scanned unless a truthy
(non-null, non-empty) `documentId` differs from `k`. -/
def scopeKeep (documentId : Option String) (k : String) : Bool :=
  match documentId with
  | none => true
  | some d => if d = "" then true else k == d

/-- Candidate records visited by the fallback search scan, in store order. -/
def recordsInScope (store : FallbackStore) (documentId : Option String) :
    List FallbackRecord :=
  (store.filter (fun e => scopeKeep documentId e.1)).flatMap (fun e => e.2)

/-- Search result record (`vectorService.js:173-181`). -/
structure SearchResult where
  content : String
  score : JsNum
  documentId : String
  chunkIndex : Nat

/-- Scoring one scanned record: reading `chunk.embedding.length` of a `null`
embedding throws a `TypeError`, modelled as `Except.error`. -/
noncomputable def scoreRecord (queryEmbedding : List ℝ) (r : FallbackRecord) :
    Except Unit SearchResult :=
  match r.embedding with
  | none => .error ()
  | some v =>
    .ok { content := r.content
          score := cosineSimilarity queryEmbedding v
          documentId := r.document_id
          chunkIndex := r.chunk_index }

/-- Error-propagating map: the scan loop stops at the first thrown error. -/
def mapExcept (f : α → Except ε β) : List α → Except ε (List β)
  | [] => .ok []
  | a :: l =>
    match f a with
    | .error e => .error e
    | .ok b =>
      match mapExcept f l with
      | .error e => .error e
      | .ok bs => .ok (b :: bs)

/-- JavaScript sort-order test for the comparator `(a, b) => b.score - a.score`:
`a` may stay before `b` iff the comparator value is not positive, where a NaN
comparator value is treated as `0` (ECMAScript `SortCompare`). -/
noncomputable def cmpKeep (a b : JsNum) : Bool :=
  match a, b with
  | .nan, _ => true
  | _, .nan => true
  | .inf, _ => true
  | _, .inf => false
  | .negInf, .negInf => true
  | .negInf, .num _ => false
  | .num _, .negInf => true
  | .num x, .num y => decide (y ≤ x)

/-- Model of the fallback search `searchChunksFallback(query, documentId, limit)`
(`vectorService.js:164-188`): scan the store in order, score every record in
scope against the query embedding, sort by descending score with the
JavaScript comparator, and keep the first `limit` results.  `queryEmbedding`
is the vector returned by `aiService.generateEmbeddings(query)`. -/
noncomputable def searchChunksFallback (store : FallbackStore)
    (queryEmbedding : List ℝ) (documentId : Option String) (limit : Nat) :
    Except Unit (List SearchResult) :=
  (mapExcept (scoreRecord queryEmbedding)
      (recordsInScope store documentId)).map
    (fun results =>
      (sortOrd (fun a b => cmpKeep a.score b.score) results).take limit)

/-- Model of the fallback branch of `deleteDocumentChunks(documentId)`
(`vectorService.js:210-212`): `Map.prototype.delete` removes the (unique)
entry with the given key, modelled by `eraseP` on the association list. -/
def deleteDocumentChunks (store : FallbackStore) (documentId : String) :
    FallbackStore :=
  store.eraseP (fun e => e.1 == documentId)

/-! ## Embedding provider chain (`aiService.js`, `generateEmbeddings`) -/

/-- Outcome of one HTTP attempt of `generateEmbeddings`: a usable embedding, a
rate-limit rejection (`error.response.status === 429`), or any other failure
(network error, non-429 status, or a response without `embedding.values`). -/
inductive EmbedOutcome where
  | success : List ℝ → EmbedOutcome
  | rateLimited : EmbedOutcome
  | failure : EmbedOutcome

/-- Model of `generateEmbeddings(text, retryCount)` together with the shared
credential pointer `this.currentKeyIndex` (`aiService.js:123-160` and
`switchToNextKey`, `aiService.js:56-59`).  `numKeys` is
`this.geminiApiKeys.length`, `resp n` the outcome of the `n`-th HTTP attempt,
`idx` the pointer value at entry and `retryCount` the recursion argument.
Returns the call's result together with the list of key indices attempted, in
order.  A rate-limited attempt with `retryCount < numKeys - 1` advances the
pointer to `(idx + 1) % numKeys` and recurses; every other failed attempt
throws `'Failed to generate embeddings'` immediately. -/
def generateEmbeddings (numKeys : Nat) (resp : Nat → EmbedOutcome)
    (idx retryCount : Nat) : Except String (List ℝ) × List Nat :=
  match resp retryCount with
  | .success v => (.ok v, [idx])
  | .rateLimited =>
    if _h : retryCount < numKeys - 1 then
      let next := generateEmbeddings numKeys resp ((idx + 1) % numKeys)
        (retryCount + 1)
      (next.1, idx :: next.2)
    else (.error "Failed to generate embeddings", [idx])
  | .failure => (.error "Failed to generate embeddings", [idx])
termination_by numKeys - retryCount
decreasing_by omega

/-! ## Text extractor (`documentProcessor.js`, `extractText`) -/

/-- Model of `extractText(filePath, fileType)` (`documentProcessor.js:64-82`).
The four format strategies (`extractFromPDF`, `extractFromTXT`,
`extractFromDOCX`, `extractFromImage`) are external effects, supplied as
oracle outcomes `pdf`, `txt`, `docx`, `img` (already carrying their own
wrapped error messages).  The `default` branch throws
`Unsupported file type: <fileType>`, but the surrounding `catch` replaces
every failure — including that one — by
`Failed to extract text from <fileType> file`. -/
def extractText (pdf txt docx img : Except String (List Char))
    (fileType : String) : Except String (List Char) :=
  let dispatched : Except String (List Char) :=
    match fileType with
    | "pdf" => pdf
    | "txt" => txt
    | "docx" => docx
    | "image" => img
    | _ => .error ("Unsupported file type: " ++ fileType)
  match dispatched with
  | .ok v => .ok v
  | .error _ => .error ("Failed to extract text from " ++ fileType ++ " file")

/-! ## Ingestion orchestrator (`documentProcessor.js`, `processDocument`) -/

/-- Oracles for the external `natural` tokenizers. -/
structure NlpOracles where
  sentTok : List Char → List (List Char)
  wordTok : List Char → List (List Char)

/-- Oracles for the Gemini-backed helpers used by `processDocument`:
`embed i` is the outcome of `aiService.generateEmbeddings` for chunk `i`
(`none` = the call threw after exhausting its retries); `chunkKw i`/`chunkSum i`
are the successfully parsed LLM answers of `extractKeywordsWithGemini` /
`generateSummaryWithGemini` on chunk `i` (`none` = that helper fell back to
the free path); `docSubject`/`docKw`/`docSum` are the same for the whole
document. -/
structure GeminiOracles where
  embed : Nat → Option (List ℝ)
  chunkKw : Nat → Option (List (List Char))
  chunkSum : Nat → Option (List Char)
  docSubject : Option (List Char)
  docKw : Option (List (List Char))
  docSum : Option (List Char)

/-- Model of `extractKeywordsWithGemini(text, maxKeywords)`
(`documentProcessor.js:256-278`): a successfully parsed LLM answer is mapped
to `{word, count: 1, source: 'gemini'}` records; any failure falls back to
the free `extractKeywords`. -/
def extractKeywordsWithGemini (oracle : Option (List (List Char)))
    (wordTok : List Char → List (List Char)) (text : List Char)
    (maxKeywords : Nat) : List Keyword :=
  match oracle with
  | some ks => ks.map (fun k => { word := k, count := 1, source := some "gemini" })
  | none => extractKeywords wordTok text maxKeywords

/-- Model of `generateSummaryWithGemini(text, maxSentences)`
(`documentProcessor.js:281-296`): a successful LLM answer is trimmed; any
failure falls back to the free `generateSummary`. -/
def generateSummaryWithGemini (oracle : Option (List Char))
    (sentTok : List Char → List (List Char)) (text : List Char)
    (maxSentences : Nat) : List Char :=
  match oracle with
  | some s => jsTrim s
  | none => generateSummary sentTok text maxSentences

/-- Model of `extractSubjectWithGemini(text)`
(`documentProcessor.js:299-315`): a successful LLM answer is trimmed and
stripped of quote characters; any failure falls back to the free
`extractSubject`. -/
def extractSubjectWithGemini (oracle : Option (List Char))
    (wordTok : List Char → List (List Char)) (text : List Char) : List Char :=
  match oracle with
  | some s => (jsTrim s).filter (fun c => c ≠ '\'' ∧ c ≠ '"')
  | none => extractSubject wordTok text

/-- Per-chunk metadata record (`documentProcessor.js:425-432`). -/
structure ChunkMetadata where
  chunkIndex : Nat
  start : Nat
  end_ : Nat
  length : Nat
  sentences : Nat
  processingMethod : String

/-- Processed chunk (`documentProcessor.js:420-433`): `embedding` is `none`
when `generateEmbeddings` threw for this chunk, in which case the keywords and
summary come from the free paths and the method is flagged `'free'`. -/
structure ProcessedChunk where
  content : List Char
  embedding : Option (List ℝ)
  keywords : List Keyword
  summary : List Char
  metadata : ChunkMetadata

/-- Per-chunk body of the `processDocument` loop
(`documentProcessor.js:396-438`): the inner `try` attempts the Gemini
embedding first, so a thrown `generateEmbeddings` (modelled by
`g.embed i = none`) switches keywords and summary to the free paths and
leaves `embedding` null; nothing in either branch can throw, so the chunk is
always pushed. -/
def processChunk (nlp : NlpOracles) (g : GeminiOracles) (i : Nat) (c : Chunk) :
    ProcessedChunk :=
  match g.embed i with
  | none =>
    { content := c.content
      embedding := none
      keywords := extractKeywords nlp.wordTok c.content 10
      summary := generateSummary nlp.sentTok c.content 3
      metadata :=
        { chunkIndex := i, start := c.start, end_ := c.end_,
          length := c.length, sentences := c.sentences,
          processingMethod := "free" } }
  | some v =>
    { content := c.content
      embedding := some v
      keywords := extractKeywordsWithGemini (g.chunkKw i) nlp.wordTok c.content 10
      summary := generateSummaryWithGemini (g.chunkSum i) nlp.sentTok c.content 3
      metadata :=
        { chunkIndex := i, start := c.start, end_ := c.end_,
          length := c.length, sentences := c.sentences,
          processingMethod := "gemini" } }

/-- Document-level metadata bag (`documentProcessor.js:466-484`). -/
structure DocMetadata where
  wordCount : Nat
  chunkCount : Nat
  language : String
  subject : List Char
  keywords : List Keyword
  summary : List Char
  readability : Readability
  processingTime : String
  processingMethod : String

/-- Result record of `processDocument` (`documentProcessor.js:464-485`). -/
structure ProcessResult where
  extractedText : List Char
  chunks : List ProcessedChunk
  metadata : DocMetadata

/-- Model of `processDocument(documentId, filePath, fileType)`
(`documentProcessor.js:379-490`).  The extraction strategies are the oracle
outcomes `pdf txt docx img` fed to `extractText`; `now` is the
`new Date().toISOString()` timestamp.  The function throws exactly when
`extractText` throws (the outer `catch` rethrows the same error) or when the
extracted text is blank; every later step — chunk embedding, chunk and
document keyword/summary/subject helpers, language detection, readability —
catches its own failures internally and cannot throw. -/
def processDocument (nlp : NlpOracles) (g : GeminiOracles) (now : String)
    (pdf txt docx img : Except String (List Char)) (fileType : String) :
    Except String ProcessResult :=
  match extractText pdf txt docx img fileType with
  | .error e => .error e
  | .ok extractedText =>
    if (jsTrim extractedText).length = 0 then
      .error "No text content found in document"
    else
      let chunks := chunkText nlp.sentTok extractedText 1000 200
      let processedChunks := chunks.enum.map (fun p => processChunk nlp g p.1 p.2)
      .ok
        { extractedText := extractedText
          chunks := processedChunks
          metadata :=
            { wordCount := (jsSplitWs extractedText).length
              chunkCount := processedChunks.length
              language := detectLanguage extractedText
              subject := extractSubjectWithGemini g.docSubject nlp.wordTok
                extractedText
              keywords := extractKeywordsWithGemini g.docKw nlp.wordTok
                extractedText 20
              summary := generateSummaryWithGemini g.docSum nlp.sentTok
                extractedText 5
              readability := calculateReadability nlp.sentTok extractedText
              processingTime := now
              processingMethod :=
                if processedChunks.any
                    (fun c => c.metadata.processingMethod == "gemini") then
                  "gemini"
                else "free" } }

/-! ## Spec-side definitions used to compare code against the specification -/

/-- The Flesch Reading Ease formula exactly as the specification states it:
`206.835 − 1.015·(words/sentences) − 84.6·(syllables/words)`. -/
def fleschSpec (words sentences syllables : Nat) : ℚ :=
  206.835 - 1.015 * ((words : ℚ) / (sentences : ℚ))
    - 84.6 * ((syllables : ℚ) / (words : ℚ))

/-- The seven ordinal readability bands of the specification, stated with
two-sided interval conditions: `Very Easy` for scores at least 90 down to
`Very Difficult` for scores below 30. -/
def fleschLevelSpec (f : ℚ) : String :=
  if 90 ≤ f then "Very Easy"
  else if 80 ≤ f ∧ f < 90 then "Easy"
  else if 70 ≤ f ∧ f < 80 then "Fairly Easy"
  else if 60 ≤ f ∧ f < 70 then "Standard"
  else if 50 ≤ f ∧ f < 60 then "Fairly Difficult"
  else if 30 ≤ f ∧ f < 50 then "Difficult"
  else "Very Difficult"

/-- An all-zero vector. -/
def allZero (v : List ℝ) : Prop := ∀ x ∈ v, x = 0

/-- Claim C2 as stated, at a given tokenizer/input: there are per-chunk
overlap-drop amounts whose remainders concatenate back to the input with no
gaps, and the recorded chunk offsets advance monotonically over the input. -/
def chunkCoversClaim (sentTok : List Char → List (List Char))
    (text : List Char) (chunkSize overlap : Nat) : Prop :=
  (∃ drops : List Nat,
      drops.length = (chunkText sentTok text chunkSize overlap).length ∧
      (List.zipWith (fun (c : Chunk) d => c.content.drop d)
          (chunkText sentTok text chunkSize overlap) drops).flatten = text)
  ∧ List.Chain' (fun a b => a.start < b.start ∧ a.end_ < b.end_)
      (chunkText sentTok text chunkSize overlap)

/-- Concrete sentence-tokenizer behaviour used in the C2 counterexample: on
the twelve-character input below it returns two sentences whose concatenation
is exactly the input. -/
def tokC2 : List Char → List (List Char) :=
  fun _ => ["aaaaa ".toList, "bbbbbb".toList]

/-- The concrete input text of the C2 counterexample. -/
def textC2 : List Char := "aaaaa bbbbbb".toList

/-- Concrete fallback store used in the C6 counterexample: a single document
whose stored chunk was produced in degraded mode and therefore has a null
embedding, exactly as `processDocument` emits and `storeDocumentChunks`
stores it. -/
def storeC6 : FallbackStore :=
  [("d1", [{ content := "c", embedding := none, document_id := "d1",
             chunk_index := 0 }])]

/-- Concrete fallback store used by the C6 witness: one document, one chunk
with a present one-dimensional embedding. -/
def storeC6w : FallbackStore :=
  [("d1", [{ content := "c", embedding := some [(1 : ℝ)], document_id := "d1",
             chunk_index := 0 }])]

/-- Concrete fallback store used by the C7 witness: two documents with
distinct keys. -/
def storeC7 : FallbackStore :=
  [("d1", [{ content := "c", embedding := none, document_id := "d1",
             chunk_index := 0 }]),
   ("d2", [{ content := "c", embedding := none, document_id := "d2",
             chunk_index := 0 }])]

/-- Concrete input text used by the C3 witness. -/
def textC3 : List Char := "hello world.".toList

/-- Concrete tokenizer oracles used by the C3 witness: the whole text is one
sentence and one word token. -/
def nlpC3 : NlpOracles := { sentTok := fun s => [s], wordTok := fun s => [s] }

/-- Concrete Gemini oracles used by the C3 witness: every embedding call
throws and every LLM helper falls back to the free path. -/
def gC3 : GeminiOracles :=
  { embed := fun _ => none, chunkKw := fun _ => none, chunkSum := fun _ => none,
    docSubject := none, docKw := none, docSum := none }

/-- Concrete input text used by the C8 witness. -/
def textC8 : List Char := "The cat sat.".toList

/-- Concrete sentence-tokenizer behaviour used by the C8 witness: one
sentence. -/
def tokC8 : List Char → List (List Char) := fun _ => [textC8]

/-! ## Theorems: chunker (claims C2, C10) -/

/-- Every chunk emitted by the `chunkText` loop is built by `mkChunk`, hence
satisfies `end_ = start + length`. -/
theorem chunkTextLoop_end_eq (chunkSize overlap : Nat) :
    ∀ (sents : List (List Char)) (cc : List Char) (st : Nat),
      ∀ c ∈ chunkTextLoop chunkSize overlap sents cc st,
        c.end_ = c.start + c.length := by
  intro sents
  induction sents with
  | nil =>
    intro cc st c hc
    simp only [chunkTextLoop] at hc
    split at hc
    · simp only [List.mem_singleton] at hc
      subst hc
      rfl
    · simp at hc
  | cons s rest ih =>
    intro cc st c hc
    simp only [chunkTextLoop] at hc
    split at hc
    · rcases List.mem_cons.mp hc with h | h
      · subst h
        rfl
      · exact ih _ _ c h
    · exact ih _ _ c hc

/-- Claim C10: every chunk record produced by `chunkText` satisfies
`end − start = length`, for every tokenizer behaviour, input text, chunk size
and overlap. -/
theorem chunkText_end_sub_start (sentTok : List Char → List (List Char))
    (text : List Char) (chunkSize overlap : Nat) (c : Chunk)
    (hc : c ∈ chunkText sentTok text chunkSize overlap) :
    c.end_ - c.start = c.length := by
  have h := chunkTextLoop_end_eq chunkSize overlap (sentTok text) [] 0 c hc
  omega

/-- Witness for C10 at a concrete two-sentence input. -/
theorem chunkText_end_sub_start_witness :
    (Chunk.mk "abcd".toList 0 4 4 1
        ∈ chunkText (fun _ => ["abcd".toList, "efgh".toList]) "x".toList 3 1)
    ∧ (Chunk.mk "abcd".toList 0 4 4 1).end_
        - (Chunk.mk "abcd".toList 0 4 4 1).start
      = (Chunk.mk "abcd".toList 0 4 4 1).length :=
  ⟨by decide,
   chunkText_end_sub_start (fun _ => ["abcd".toList, "efgh".toList])
     "x".toList 3 1 _ (by decide)⟩

/-- Counterexample to claim C2 as stated: on a two-sentence tokenization whose
concatenation is the input, `chunkText` emits two chunks that both record
`start = 0` (the `chunkStart` update in the source is arithmetically a
no-op), so the offsets do not advance; moreover both trimmed contents
together hold 11 of the 12 input characters, so no choice of overlap-drops
reconstructs the input. -/
theorem chunkText_covers_counterexample : ¬ chunkCoversClaim tokC2 textC2 5 3 := by
  intro h
  obtain ⟨-, hchain⟩ := h
  have hch : chunkText tokC2 textC2 5 3 =
      [Chunk.mk "aaaaa".toList 0 6 6 1, Chunk.mk "bbbbbb".toList 0 6 6 1] := by
    decide
  rw [hch] at hchain
  have h1 := (List.chain'_cons.mp hchain).1
  exact absurd h1.1 (by decide)

/-- Invariant of the instrumented `chunkText` loop: the emitted raw buffers
minus their overlap seeds, followed by the dropped trailing remainder,
reconstruct exactly the unconsumed buffer remainder plus all remaining
sentences; the dropped trailing buffer is blank; every emitted chunk records
the unchanged start offset; the first emitted chunk extends the current
buffer and inherits its seed; and consecutive emitted chunks are linked by
`getOverlapText`. -/
theorem chunkTextAuxLoop_spec (chunkSize overlap : Nat) :
    ∀ (sents : List (List Char)) (cc : List Char) (seedLen st : Nat),
      seedLen ≤ cc.length →
      ∀ axs lraw lseed,
        chunkTextAuxLoop chunkSize overlap sents cc seedLen st
          = (axs, lraw, lseed) →
        ((axs.map dropSeed).flatten ++ lraw.drop lseed
            = cc.drop seedLen ++ sents.flatten)
        ∧ jsTrim lraw = []
        ∧ (∀ a ∈ axs, a.start = st ∧ a.seedLen ≤ a.raw.length)
        ∧ (∀ a, axs.head? = some a →
            a.seedLen = seedLen ∧ ∃ suf, a.raw = cc ++ suf)
        ∧ List.Chain' (seedRel overlap) axs := by
  intro sents
  induction sents with
  | nil =>
    intro cc seedLen st h axs lraw lseed heq
    simp only [chunkTextAuxLoop] at heq
    split at heq
    · obtain ⟨rfl, rfl, rfl⟩ := Prod.mk.injEq .. ▸ heq
      refine ⟨by simp [dropSeed], by simp [jsTrim], ?_, ?_, by simp⟩
      · intro a ha
        simp only [List.mem_singleton] at ha
        subst ha
        exact ⟨rfl, h⟩
      · intro a ha
        simp only [List.head?_cons, Option.some.injEq] at ha
        subst ha
        exact ⟨rfl, [], by simp⟩
    · rename_i hcond
      obtain ⟨rfl, rfl, rfl⟩ := Prod.mk.injEq .. ▸ heq
      have hnil : jsTrim cc = [] := List.length_eq_zero.mp (by omega)
      exact ⟨by simp, hnil, by simp, by simp, by simp⟩
  | cons s rest ih =>
    intro cc seedLen st h axs lraw lseed heq
    simp only [chunkTextAuxLoop] at heq
    split at heq
    · rcases hR : chunkTextAuxLoop chunkSize overlap rest
          (getOverlapText cc overlap ++ s)
          (getOverlapText cc overlap).length st with ⟨axs', rest'⟩
      rcases rest' with ⟨lraw', lseed'⟩
      rw [hR] at heq
      obtain ⟨rfl, rfl, rfl⟩ := Prod.mk.injEq .. ▸ heq
      obtain ⟨ih1, ih2, ih3, ih4, ih5⟩ :=
        ih (getOverlapText cc overlap ++ s)
          (getOverlapText cc overlap).length st (by simp) _ _ _ hR
      refine ⟨?_, ih2, ?_, ?_, ?_⟩
      · simp only [List.map_cons, List.flatten_cons, List.append_assoc, ih1]
        simp [dropSeed, List.drop_left]
      · intro a ha
        rcases List.mem_cons.mp ha with rfl | ha
        · exact ⟨rfl, h⟩
        · exact ih3 a ha
      · intro a ha
        simp only [List.head?_cons, Option.some.injEq] at ha
        subst ha
        exact ⟨rfl, [], by simp⟩
      · rw [List.chain'_cons']
        refine ⟨?_, ih5⟩
        intro b hb
        obtain ⟨hb1, suf, hb2⟩ := ih4 b (by simpa using hb)
        show b.raw.take b.seedLen = getOverlapText cc overlap
        rw [hb2, hb1, List.append_assoc, List.take_left]
    · rename_i hcond
      obtain ⟨ih1, ih2, ih3, ih4, ih5⟩ :=
        ih (cc ++ s) seedLen st
          (le_trans h (by simp)) axs lraw lseed heq
      refine ⟨?_, ih2, ih3, ?_, ih5⟩
      · rw [ih1, List.drop_append_of_le_length h]
        simp [List.append_assoc]
      · intro a ha
        obtain ⟨ha1, suf, ha2⟩ := ih4 a ha
        exact ⟨ha1, s ++ suf, by rw [ha2, List.append_assoc]⟩

/-- The source chunk list is the `mkChunk` projection of the instrumented
loop; in particular the source's `chunkStart` bookkeeping never changes the
offset, because its update expression is the identity. -/
theorem chunkTextLoop_eq_auxLoop (chunkSize overlap : Nat) :
    ∀ (sents : List (List Char)) (cc : List Char) (seedLen st : Nat),
      chunkTextLoop chunkSize overlap sents cc st
        = ((chunkTextAuxLoop chunkSize overlap sents cc seedLen st).1).map
            (fun a => mkChunk a.raw a.start) := by
  intro sents
  induction sents with
  | nil =>
    intro cc seedLen st
    by_cases hc : (jsTrim cc).length > 0
    · simp [chunkTextLoop, chunkTextAuxLoop, hc]
    · simp [chunkTextLoop, chunkTextAuxLoop, hc]
  | cons s rest ih =>
    intro cc seedLen st
    by_cases hc : cc.length + s.length > chunkSize ∧ cc.length > 0
    · have hst : st + (getOverlapText cc overlap ++ s).length
          - (getOverlapText cc overlap).length - s.length = st := by
        simp only [List.length_append]
        omega
      simp only [chunkTextLoop, chunkTextAuxLoop, if_pos hc, hst,
        List.map_cons]
      exact congrArg _ (ih _ (getOverlapText cc overlap).length st)
    · simp only [chunkTextLoop, chunkTextAuxLoop, if_neg hc]
      exact ih _ seedLen st

/-- Claim C2 (amended): `chunkText` covers the tokenizer's sentence stream in
order, but at the level of the untrimmed buffers and with non-advancing
recorded offsets.  Every returned chunk is the `mkChunk` projection (trimmed
content, recorded offsets) of an instrumented chunk; dropping each
instrumented chunk's overlap seed and concatenating the remainders, followed
by the discarded blank tail, reconstructs the concatenation of the
tokenizer's sentences exactly; the discarded tail is blank; the first chunk
has no seed and consecutive chunks are seeded by `getOverlapText` of the
previous raw buffer; and every chunk records `start = 0`, so the recorded
offsets do not advance over the input. -/
theorem chunkText_coverage_amended (sentTok : List Char → List (List Char))
    (text : List Char) (chunkSize overlap : Nat) :
    chunkText sentTok text chunkSize overlap
      = ((chunkTextAux sentTok text chunkSize overlap).1).map
          (fun a => mkChunk a.raw a.start)
    ∧ (((chunkTextAux sentTok text chunkSize overlap).1).map dropSeed).flatten
        ++ ((chunkTextAux sentTok text chunkSize overlap).2.1).drop
            ((chunkTextAux sentTok text chunkSize overlap).2.2)
      = (sentTok text).flatten
    ∧ jsTrim ((chunkTextAux sentTok text chunkSize overlap).2.1) = []
    ∧ (∀ a ∈ (chunkTextAux sentTok text chunkSize overlap).1, a.start = 0)
    ∧ (∀ a, ((chunkTextAux sentTok text chunkSize overlap).1).head? = some a →
        a.seedLen = 0)
    ∧ List.Chain' (seedRel overlap) (chunkTextAux sentTok text chunkSize overlap).1 := by
  have hproj := chunkTextLoop_eq_auxLoop chunkSize overlap (sentTok text) [] 0 0
  rcases hA : chunkTextAux sentTok text chunkSize overlap with ⟨axs, lraw, lseed⟩
  have hA' : chunkTextAuxLoop chunkSize overlap (sentTok text) [] 0 0
      = (axs, lraw, lseed) := hA
  obtain ⟨h1, h2, h3, h4, h5⟩ :=
    chunkTextAuxLoop_spec chunkSize overlap (sentTok text) [] 0 0
      (by simp) axs lraw lseed hA'
  refine ⟨?_, ?_, h2, ?_, ?_, h5⟩
  · rw [show chunkText sentTok text chunkSize overlap
        = chunkTextLoop chunkSize overlap (sentTok text) [] 0 from rfl, hproj, hA']
  · simpa using h1
  · intro a ha
    exact (h3 a ha).1
  · intro a ha
    exact (h4 a ha).1

/-! ## Theorems: cosine similarity (claim C1) -/

/-- A sum of squares of reals is zero when the vector is all-zero. -/
theorem sum_sq_eq_zero (v : List ℝ) (h : allZero v) :
    (v.map (fun x => x * x)).sum = 0 := by
  apply List.sum_eq_zero
  intro x hx
  obtain ⟨y, hy, rfl⟩ := List.mem_map.mp hx
  rw [h y hy, mul_zero]

/-- The dot product with an all-zero left vector is zero. -/
theorem zipWith_mul_sum_eq_zero_left :
    ∀ (a b : List ℝ), allZero a → (List.zipWith (· * ·) a b).sum = 0
  | [], _, _ => by simp
  | _ :: _, [], _ => by simp
  | x :: a, y :: b, h => by
    have hx : x = 0 := h x (List.mem_cons_self x a)
    have ha : allZero a := fun z hz => h z (List.mem_cons_of_mem x hz)
    simp [hx, zipWith_mul_sum_eq_zero_left a b ha]

/-- The dot product with an all-zero right vector is zero. -/
theorem zipWith_mul_sum_eq_zero_right :
    ∀ (a b : List ℝ), allZero b → (List.zipWith (· * ·) a b).sum = 0
  | [], _, _ => by simp
  | _ :: _, [], _ => by simp
  | x :: a, y :: b, h => by
    have hy : y = 0 := h y (List.mem_cons_self y b)
    have hb : allZero b := fun z hz => h z (List.mem_cons_of_mem y hz)
    simp [hy, zipWith_mul_sum_eq_zero_right a b hb]

/-- Claim C1 (amended): `cosineSimilarity` never raises and returns exactly
`0` when the two vectors have different lengths; but when the lengths match
and either vector is all-zero, the unguarded division is `0 / 0` and the
result is NaN, not `0`. -/
theorem cosineSimilarity_amended (a b : List ℝ) :
    (a.length ≠ b.length → cosineSimilarity a b = JsNum.num 0)
    ∧ (a.length = b.length → allZero a ∨ allZero b →
        cosineSimilarity a b = JsNum.nan) := by
  constructor
  · intro h
    simp [cosineSimilarity, h]
  · intro hlen hz
    have hdot : (List.zipWith (· * ·) a b).sum = 0 := by
      cases hz with
      | inl h => exact zipWith_mul_sum_eq_zero_left a b h
      | inr h => exact zipWith_mul_sum_eq_zero_right a b h
    have hden : Real.sqrt ((a.map (fun x => x * x)).sum)
        * Real.sqrt ((b.map (fun x => x * x)).sum) = 0 := by
      cases hz with
      | inl h => rw [sum_sq_eq_zero a h, Real.sqrt_zero, zero_mul]
      | inr h => rw [sum_sq_eq_zero b h, Real.sqrt_zero, mul_zero]
    simp only [cosineSimilarity, hlen, ne_eq, not_true_eq_false,
      if_false, hdot, hden]
    simp [jsDiv]

/-- Counterexample to claim C1 as stated: for the all-zero pair
`([0], [0])` the code divides `0` by `0` and returns NaN, which is not the
number `0` the claim (and the specification) require. -/
theorem cosineSimilarity_claim_counterexample :
    cosineSimilarity [(0 : ℝ)] [(0 : ℝ)] = JsNum.nan
    ∧ JsNum.nan ≠ JsNum.num 0 := by
  constructor
  · simp [cosineSimilarity, jsDiv, Real.sqrt_zero]
  · simp

/-- Witness for the amended C1 at concrete inputs: a length mismatch yields
the number `0`, and an all-zero left vector of matching length yields NaN. -/
theorem cosineSimilarity_amended_witness :
    (([(1 : ℝ)] : List ℝ).length ≠ ([(1 : ℝ), 2] : List ℝ).length
      ∧ cosineSimilarity [(1 : ℝ)] [(1 : ℝ), 2] = JsNum.num 0)
    ∧ ((([(0 : ℝ), 0] : List ℝ).length = ([(5 : ℝ), 6] : List ℝ).length
        ∧ allZero [(0 : ℝ), 0])
      ∧ cosineSimilarity [(0 : ℝ), 0] [(5 : ℝ), 6] = JsNum.nan) :=
  ⟨⟨by simp, (cosineSimilarity_amended _ _).1 (by simp)⟩,
   ⟨⟨by simp, by intro x hx; simpa using hx⟩,
    (cosineSimilarity_amended _ _).2 (by simp)
      (Or.inl (by intro x hx; simpa using hx))⟩⟩

/-! ## Theorems: text extractor (claim C9) -/

/-- Claim C9 (amended): for a `fileType` outside the supported set the
dispatch throws `Unsupported file type: <fileType>`, but `extractText`'s
catch-all replaces it, so the error that escapes is
`Failed to extract text from <fileType> file` — the same wrapper produced for
parser failures of a supported format, not a distinct error. -/
theorem extractText_unsupported_amended (pdf txt docx img : Except String (List Char))
    (fileType : String)
    (h : fileType ∉ (["pdf", "txt", "docx", "image"] : List String)) :
    extractText pdf txt docx img fileType
      = .error ("Failed to extract text from " ++ fileType ++ " file") := by
  simp only [List.mem_cons, List.mem_singleton, not_or] at h
  obtain ⟨h1, h2, h3, h4, -⟩ := h
  unfold extractText
  split
  · exact absurd rfl h1
  · exact absurd rfl h2
  · exact absurd rfl h3
  · exact absurd rfl h4
  · rfl

/-- Counterexample to claim C9 as stated: for the unsupported type `"xyz"`
the surfaced error is the generic extraction wrapper, not the distinct
`Unsupported file type` error the claim requires. -/
theorem extractText_unsupported_counterexample :
    extractText (.ok "t".toList) (.ok "t".toList) (.ok "t".toList)
        (.ok "t".toList) "xyz"
      = .error "Failed to extract text from xyz file"
    ∧ (Except.error "Failed to extract text from xyz file"
        : Except String (List Char))
      ≠ .error "Unsupported file type: xyz" := by
  constructor
  · rfl
  · intro h
    have := Except.error.inj h
    simp at this

/-- Witness for the amended C9 at the concrete unsupported type `"xyz"`. -/
theorem extractText_unsupported_amended_witness :
    ("xyz" ∉ (["pdf", "txt", "docx", "image"] : List String))
    ∧ extractText (.ok "a".toList) (.ok "b".toList) (.ok "c".toList)
        (.ok "d".toList) "xyz"
      = .error ("Failed to extract text from " ++ "xyz" ++ " file") :=
  ⟨by decide,
   extractText_unsupported_amended (.ok "a".toList) (.ok "b".toList)
     (.ok "c".toList) (.ok "d".toList) "xyz" (by decide)⟩

/-! ## Theorems: embedding credential rotation (claim C5) -/

/-- Trace invariant of `generateEmbeddings`, proved by induction on the
remaining retry budget `numKeys - 1 - retryCount`: the attempted key indices
are `p, (p+1) % numKeys, …`; there are at most `numKeys - retryCount` of
them; every attempt but the last was rate-limited; and the call's result is
determined by the outcome of the last attempt. -/
theorem generateEmbeddings_trace_spec (numKeys : Nat) (resp : Nat → EmbedOutcome) :
    ∀ (n p r : Nat), p < numKeys → r ≤ numKeys - 1 → numKeys - 1 - r = n →
      0 < (generateEmbeddings numKeys resp p r).2.length
      ∧ (generateEmbeddings numKeys resp p r).2.length ≤ numKeys - r
      ∧ (generateEmbeddings numKeys resp p r).2
          = (List.range (generateEmbeddings numKeys resp p r).2.length).map
              (fun j => (p + j) % numKeys)
      ∧ (∀ j, j + 1 < (generateEmbeddings numKeys resp p r).2.length →
          resp (r + j) = .rateLimited)
      ∧ (∀ v, resp (r + ((generateEmbeddings numKeys resp p r).2.length - 1))
            = .success v → (generateEmbeddings numKeys resp p r).1 = .ok v)
      ∧ ((resp (r + ((generateEmbeddings numKeys resp p r).2.length - 1))
              = .rateLimited
          ∨ resp (r + ((generateEmbeddings numKeys resp p r).2.length - 1))
              = .failure) →
          (generateEmbeddings numKeys resp p r).1
            = .error "Failed to generate embeddings") := by
  intro n
  induction n with
  | zero =>
    intro p r hp hr h0
    have hreq : r = numKeys - 1 := by omega
    cases hresp : resp r with
    | success v =>
      rw [generateEmbeddings]
      simp only [hresp]
      refine ⟨by simp, by simp; omega, ?_, by simp, ?_, ?_⟩
      · simp [List.range_succ_eq_map, Nat.mod_eq_of_lt hp]
      · intro w hw
        simp only [List.length_cons, List.length_nil, Nat.add_sub_cancel,
          Nat.add_zero] at hw
        rw [hresp] at hw
        simp_all
      · intro hbad
        simp only [List.length_cons, List.length_nil, Nat.add_sub_cancel,
          Nat.add_zero] at hbad
        rw [hresp] at hbad
        rcases hbad with h | h <;> exact absurd h (by simp)
    | rateLimited =>
      rw [generateEmbeddings]
      simp only [hresp]
      rw [dif_neg (by omega)]
      refine ⟨by simp, by simp; omega, ?_, by simp, ?_, ?_⟩
      · simp [List.range_succ_eq_map, Nat.mod_eq_of_lt hp]
      · intro w hw
        simp only [List.length_cons, List.length_nil, Nat.add_sub_cancel,
          Nat.add_zero] at hw
        rw [hresp] at hw
        simp_all
      · intro _
        trivial
    | failure =>
      rw [generateEmbeddings]
      simp only [hresp]
      refine ⟨by simp, by simp; omega, ?_, by simp, ?_, ?_⟩
      · simp [List.range_succ_eq_map, Nat.mod_eq_of_lt hp]
      · intro w hw
        simp only [List.length_cons, List.length_nil, Nat.add_sub_cancel,
          Nat.add_zero] at hw
        rw [hresp] at hw
        simp_all
      · intro _
        trivial
  | succ n ih =>
    intro p r hp hr h0
    have hnum : 0 < numKeys := by omega
    have hrlt : r < numKeys - 1 := by omega
    cases hresp : resp r with
    | success v =>
      rw [generateEmbeddings]
      simp only [hresp]
      refine ⟨by simp, by simp; omega, ?_, by simp, ?_, ?_⟩
      · simp [List.range_succ_eq_map, Nat.mod_eq_of_lt hp]
      · intro w hw
        simp only [List.length_cons, List.length_nil, Nat.add_sub_cancel,
          Nat.add_zero] at hw
        rw [hresp] at hw
        simp_all
      · intro hbad
        simp only [List.length_cons, List.length_nil, Nat.add_sub_cancel,
          Nat.add_zero] at hbad
        rw [hresp] at hbad
        rcases hbad with h | h <;> exact absurd h (by simp)
    | failure =>
      rw [generateEmbeddings]
      simp only [hresp]
      refine ⟨by simp, by simp; omega, ?_, by simp, ?_, ?_⟩
      · simp [List.range_succ_eq_map, Nat.mod_eq_of_lt hp]
      · intro w hw
        simp only [List.length_cons, List.length_nil, Nat.add_sub_cancel,
          Nat.add_zero] at hw
        rw [hresp] at hw
        simp_all
      · intro _
        trivial
    | rateLimited =>
      obtain ⟨ih1, ih2, ih3, ih4, ih5, ih6⟩ :=
        ih ((p + 1) % numKeys) (r + 1) (Nat.mod_lt _ hnum) (by omega) (by omega)
      rw [generateEmbeddings]
      simp only [hresp]
      rw [dif_pos hrlt]
      simp only [List.length_cons]
      refine ⟨by simp, by omega, ?_, ?_, ?_, ?_⟩
      · rw [List.range_succ_eq_map, List.map_cons]
        refine congrArg₂ _ ?_ ?_
        · simpa using (Nat.mod_eq_of_lt hp).symm
        · conv_lhs => rw [ih3]
          rw [List.map_map]
          apply List.map_congr_left
          intro j _
          simp only [Function.comp_apply, Nat.succ_eq_add_one, Nat.mod_add_mod]
          congr 1
          omega
      · intro j hj
        cases j with
        | zero => simpa using hresp
        | succ j' =>
          have := ih4 j' (by omega)
          rw [show r + (j' + 1) = r + 1 + j' by omega]
          exact this
      · intro w hw
        have hL : 0 < (generateEmbeddings numKeys resp ((p + 1) % numKeys)
            (r + 1)).2.length := ih1
        rw [show r + ((generateEmbeddings numKeys resp ((p + 1) % numKeys)
              (r + 1)).2.length + 1 - 1)
            = r + 1 + ((generateEmbeddings numKeys resp ((p + 1) % numKeys)
              (r + 1)).2.length - 1) by omega] at hw
        exact ih5 w hw
      · intro hbad
        have hL : 0 < (generateEmbeddings numKeys resp ((p + 1) % numKeys)
            (r + 1)).2.length := ih1
        rw [show r + ((generateEmbeddings numKeys resp ((p + 1) % numKeys)
              (r + 1)).2.length + 1 - 1)
            = r + 1 + ((generateEmbeddings numKeys resp ((p + 1) % numKeys)
              (r + 1)).2.length - 1) by omega] at hbad
        exact ih6 hbad

/-- Claim C5: starting from pointer `idx`, `generateEmbeddings` attempts keys
`idx, (idx+1) % numKeys, …` — each rate-limit advances the rotation pointer
by one modulo the number of available keys — makes at most one attempt per
available credential (at most `numKeys` attempts, all at pairwise distinct
key indices), retries only after a rate-limited attempt, and any
non-rate-limit failure (or exhausting the credentials) fails the call with
`Failed to generate embeddings` immediately. -/
theorem generateEmbeddings_rotation (numKeys : Nat) (resp : Nat → EmbedOutcome)
    (idx : Nat) (hn : 0 < numKeys) (hidx : idx < numKeys) :
    (generateEmbeddings numKeys resp idx 0).2.length ≤ numKeys
    ∧ (generateEmbeddings numKeys resp idx 0).2
        = (List.range (generateEmbeddings numKeys resp idx 0).2.length).map
            (fun j => (idx + j) % numKeys)
    ∧ (generateEmbeddings numKeys resp idx 0).2.Nodup
    ∧ (∀ j, j + 1 < (generateEmbeddings numKeys resp idx 0).2.length →
        resp j = .rateLimited)
    ∧ (∀ v, resp ((generateEmbeddings numKeys resp idx 0).2.length - 1)
          = .success v →
        (generateEmbeddings numKeys resp idx 0).1 = .ok v)
    ∧ ((resp ((generateEmbeddings numKeys resp idx 0).2.length - 1)
            = .rateLimited
        ∨ resp ((generateEmbeddings numKeys resp idx 0).2.length - 1)
            = .failure) →
        (generateEmbeddings numKeys resp idx 0).1
          = .error "Failed to generate embeddings") := by
  obtain ⟨h1, h2, h3, h4, h5, h6⟩ :=
    generateEmbeddings_trace_spec numKeys resp (numKeys - 1) idx 0 hidx
      (by omega) (by omega)
  have hlen : (generateEmbeddings numKeys resp idx 0).2.length ≤ numKeys := by
    omega
  refine ⟨hlen, h3, ?_, ?_, ?_, ?_⟩
  · rw [h3]
    apply List.Nodup.map_on ?_ (List.nodup_range _)
    intro j1 hj1 j2 hj2 hmod
    have hj1' : j1 < numKeys := lt_of_lt_of_le (List.mem_range.mp hj1) hlen
    have hj2' : j2 < numKeys := lt_of_lt_of_le (List.mem_range.mp hj2) hlen
    have hcanc : j1 % numKeys = j2 % numKeys :=
      Nat.ModEq.add_left_cancel' idx hmod
    rwa [Nat.mod_eq_of_lt hj1', Nat.mod_eq_of_lt hj2'] at hcanc
  · intro j hj
    simpa using h4 j hj
  · intro v hv
    exact h5 v (by simpa using hv)
  · intro hbad
    exact h6 (by simpa using hbad)

/-- Witness for C5 with two credentials: the first attempt is rate-limited,
the second succeeds. -/
theorem generateEmbeddings_rotation_witness :
    ((0 : Nat) < 2 ∧ (0 : Nat) < 2)
    ∧ ((generateEmbeddings 2
          (fun j => if j = 0 then .rateLimited else .success [1]) 0 0).2.length ≤ 2
      ∧ (generateEmbeddings 2
            (fun j => if j = 0 then .rateLimited else .success [1]) 0 0).2
          = (List.range (generateEmbeddings 2
              (fun j => if j = 0 then .rateLimited else .success [1])
                0 0).2.length).map (fun j => (0 + j) % 2)
      ∧ (generateEmbeddings 2
            (fun j => if j = 0 then .rateLimited else .success [1]) 0 0).2.Nodup
      ∧ (∀ j, j + 1 < (generateEmbeddings 2
            (fun j => if j = 0 then .rateLimited else .success [1])
              0 0).2.length →
          (fun j => if j = 0 then EmbedOutcome.rateLimited
            else .success [1]) j = .rateLimited)
      ∧ (∀ v, (fun j => if j = 0 then EmbedOutcome.rateLimited
              else .success [1])
            ((generateEmbeddings 2
              (fun j => if j = 0 then .rateLimited else .success [1])
                0 0).2.length - 1) = .success v →
          (generateEmbeddings 2
            (fun j => if j = 0 then .rateLimited else .success [1]) 0 0).1
            = .ok v)
      ∧ (((fun j => if j = 0 then EmbedOutcome.rateLimited
              else .success [1])
            ((generateEmbeddings 2
              (fun j => if j = 0 then .rateLimited else .success [1])
                0 0).2.length - 1) = .rateLimited
          ∨ (fun j => if j = 0 then EmbedOutcome.rateLimited
              else .success [1])
            ((generateEmbeddings 2
              (fun j => if j = 0 then .rateLimited else .success [1])
                0 0).2.length - 1) = .failure) →
          (generateEmbeddings 2
            (fun j => if j = 0 then .rateLimited else .success [1]) 0 0).1
            = .error "Failed to generate embeddings")) :=
  ⟨⟨by decide, by decide⟩,
   generateEmbeddings_rotation 2
     (fun j => if j = 0 then .rateLimited else .success [1]) 0
     (by decide) (by decide)⟩

/-! ## Theorems: readability (claim C8) -/

/-- The if-chain of `calculateReadability` agrees with the interval-based
band mapping of the specification, for every score. -/
theorem fleschChain_eq_levelSpec (f : ℚ) :
    (if f ≥ 90 then "Very Easy"
      else if f ≥ 80 then "Easy"
      else if f ≥ 70 then "Fairly Easy"
      else if f ≥ 60 then "Standard"
      else if f ≥ 50 then "Fairly Difficult"
      else if f ≥ 30 then "Difficult"
      else "Very Difficult") = fleschLevelSpec f := by
  unfold fleschLevelSpec
  rcases le_or_lt 90 f with h1 | h1
  · rw [if_pos (by linarith : f ≥ 90), if_pos h1]
  rw [if_neg (by linarith : ¬f ≥ 90), if_neg (by linarith : ¬90 ≤ f)]
  rcases le_or_lt 80 f with h2 | h2
  · rw [if_pos (by linarith : f ≥ 80), if_pos ⟨h2, h1⟩]
  rw [if_neg (by linarith : ¬f ≥ 80),
    if_neg (fun hc : 80 ≤ f ∧ f < 90 => absurd hc.1 (by linarith))]
  rcases le_or_lt 70 f with h3 | h3
  · rw [if_pos (by linarith : f ≥ 70), if_pos ⟨h3, h2⟩]
  rw [if_neg (by linarith : ¬f ≥ 70),
    if_neg (fun hc : 70 ≤ f ∧ f < 80 => absurd hc.1 (by linarith))]
  rcases le_or_lt 60 f with h4 | h4
  · rw [if_pos (by linarith : f ≥ 60), if_pos ⟨h4, h3⟩]
  rw [if_neg (by linarith : ¬f ≥ 60),
    if_neg (fun hc : 60 ≤ f ∧ f < 70 => absurd hc.1 (by linarith))]
  rcases le_or_lt 50 f with h5 | h5
  · rw [if_pos (by linarith : f ≥ 50), if_pos ⟨h5, h4⟩]
  rw [if_neg (by linarith : ¬f ≥ 50),
    if_neg (fun hc : 50 ≤ f ∧ f < 60 => absurd hc.1 (by linarith))]
  rcases le_or_lt 30 f with h6 | h6
  · rw [if_pos (by linarith : f ≥ 30), if_pos ⟨h6, h5⟩]
  rw [if_neg (by linarith : ¬f ≥ 30),
    if_neg (fun hc : 30 ≤ f ∧ f < 50 => absurd hc.1 (by linarith))]

/-- Claim C8: whenever the input has at least one word and the tokenizer
finds at least one sentence, `calculateReadability` returns the rounded
Flesch Reading Ease score `206.835 − 1.015·(words/sentences) −
84.6·(syllables/words)` and the level given by the seven ordinal bands, from
`Very Easy` (score ≥ 90) down to `Very Difficult` (score < 30), applied to
the unrounded score. -/
theorem calculateReadability_flesch (sentTok : List Char → List (List Char))
    (text : List Char) (hs : sentTok text ≠ [])
    (hw : (jsSplitWs text).filter (fun w => w.length > 0) ≠ []) :
    (calculateReadability sentTok text).score
      = jsRound (fleschSpec
          ((jsSplitWs text).filter (fun w => w.length > 0)).length
          (sentTok text).length
          (((jsSplitWs text).filter (fun w => w.length > 0)).map
            countSyllables).sum)
    ∧ (calculateReadability sentTok text).level
      = fleschLevelSpec (fleschSpec
          ((jsSplitWs text).filter (fun w => w.length > 0)).length
          (sentTok text).length
          (((jsSplitWs text).filter (fun w => w.length > 0)).map
            countSyllables).sum) := by
  constructor
  · rfl
  · exact fleschChain_eq_levelSpec _

/-- Witness for C8 at the concrete one-sentence input `"The cat sat."`. -/
theorem calculateReadability_flesch_witness :
    (tokC8 textC8 ≠ []
      ∧ (jsSplitWs textC8).filter (fun w => w.length > 0) ≠ [])
    ∧ ((calculateReadability tokC8 textC8).score
        = jsRound (fleschSpec
            ((jsSplitWs textC8).filter (fun w => w.length > 0)).length
            (tokC8 textC8).length
            (((jsSplitWs textC8).filter (fun w => w.length > 0)).map
              countSyllables).sum)
      ∧ (calculateReadability tokC8 textC8).level
        = fleschLevelSpec (fleschSpec
            ((jsSplitWs textC8).filter (fun w => w.length > 0)).length
            (tokC8 textC8).length
            (((jsSplitWs textC8).filter (fun w => w.length > 0)).map
              countSyllables).sum)) :=
  ⟨⟨by decide, by decide⟩,
   calculateReadability_flesch tokC8 textC8 (by decide) (by decide)⟩

/-! ## Theorems: fallback search and delete (claims C6, C7) -/

/-- Members of `insertOrd` are the inserted element or members of the list. -/
theorem mem_insertOrd (le : α → α → Bool) (x : α) :
    ∀ (l : List α) (y : α), y ∈ insertOrd le x l → y = x ∨ y ∈ l
  | [], y, hy => by simpa [insertOrd] using hy
  | z :: zs, y, hy => by
    simp only [insertOrd] at hy
    split at hy
    · rcases List.mem_cons.mp hy with rfl | hy
      · exact Or.inr (List.mem_cons_self _ _)
      · rcases mem_insertOrd le x zs y hy with h | h
        · exact Or.inl h
        · exact Or.inr (List.mem_cons_of_mem _ h)
    · rcases List.mem_cons.mp hy with rfl | hy
      · exact Or.inl rfl
      · exact Or.inr hy

/-- Inserting with `insertOrd` adds exactly one element. -/
theorem length_insertOrd (le : α → α → Bool) (x : α) :
    ∀ l : List α, (insertOrd le x l).length = l.length + 1
  | [] => rfl
  | z :: zs => by
    simp only [insertOrd]
    split
    · simp [length_insertOrd le x zs]
    · simp

/-- Members of `sortOrd` are members of the input. -/
theorem mem_sortOrd (le : α → α → Bool) :
    ∀ (l : List α) (y : α), y ∈ sortOrd le l → y ∈ l
  | [], y, hy => by simpa [sortOrd] using hy
  | z :: zs, y, hy => by
    simp only [sortOrd] at hy
    rcases mem_insertOrd le z _ y hy with rfl | hy
    · exact List.mem_cons_self _ _
    · exact List.mem_cons_of_mem _ (mem_sortOrd le zs y hy)

/-- Sorting with `sortOrd` preserves length. -/
theorem length_sortOrd (le : α → α → Bool) :
    ∀ l : List α, (sortOrd le l).length = l.length
  | [] => rfl
  | z :: zs => by
    simp [sortOrd, length_insertOrd, length_sortOrd le zs]

/-- Inserting into a locally sorted list keeps it locally sorted, provided
the boolean order decides the relation on all involved elements. -/
theorem chain'_insertOrd (le : α → α → Bool) (R : α → α → Prop) (P : α → Prop)
    (htrue : ∀ a b, P a → P b → le a b = true → R a b)
    (hfalse : ∀ a b, P a → P b → le a b = false → R b a) (x : α) (hx : P x) :
    ∀ l : List α, (∀ y ∈ l, P y) → List.Chain' R l →
      List.Chain' R (insertOrd le x l)
  | [], _, _ => by simp [insertOrd]
  | z :: zs, hP, hchain => by
    have hz : P z := hP z (List.mem_cons_self _ _)
    have hPzs : ∀ y ∈ zs, P y := fun y hy => hP y (List.mem_cons_of_mem _ hy)
    simp only [insertOrd]
    split
    · rename_i hle
      rw [List.chain'_cons']
      refine ⟨?_, chain'_insertOrd le R P htrue hfalse x hx zs hPzs
        hchain.tail⟩
      intro w hw
      cases zs with
      | nil =>
        simp only [insertOrd, List.head?_cons, Option.mem_def,
          Option.some.injEq] at hw
        subst hw
        exact htrue z _ hz hx hle
      | cons u us =>
        simp only [insertOrd] at hw
        split at hw
        · simp only [List.head?_cons, Option.mem_def,
            Option.some.injEq] at hw
          subst hw
          exact (List.chain'_cons.mp hchain).1
        · simp only [List.head?_cons, Option.mem_def,
            Option.some.injEq] at hw
          subst hw
          exact htrue z _ hz hx hle
    · rename_i hle
      rw [List.chain'_cons]
      exact ⟨hfalse z x hz hx (by simpa using hle), hchain⟩

/-- Sorting with `sortOrd` produces a locally sorted list when the boolean
order decides the relation. -/
theorem chain'_sortOrd (le : α → α → Bool) (R : α → α → Prop) (P : α → Prop)
    (htrue : ∀ a b, P a → P b → le a b = true → R a b)
    (hfalse : ∀ a b, P a → P b → le a b = false → R b a) :
    ∀ l : List α, (∀ y ∈ l, P y) → List.Chain' R (sortOrd le l)
  | [], _ => by simp [sortOrd]
  | z :: zs, hP => by
    simp only [sortOrd]
    exact chain'_insertOrd le R P htrue hfalse z
      (hP z (List.mem_cons_self _ _)) _
      (fun y hy => hP y (List.mem_cons_of_mem _ (mem_sortOrd le zs y hy)))
      (chain'_sortOrd le R P htrue hfalse zs
        (fun y hy => hP y (List.mem_cons_of_mem _ hy)))

/-- If every element maps to `ok`, `mapExcept` returns `ok` and relates input
to output pointwise. -/
theorem mapExcept_ok_of_forall (f : α → Except ε β) :
    ∀ l : List α, (∀ a ∈ l, ∃ b, f a = .ok b) →
      ∃ bs, mapExcept f l = .ok bs
        ∧ List.Forall₂ (fun a b => f a = .ok b) l bs
  | [], _ => ⟨[], rfl, List.Forall₂.nil⟩
  | a :: l, h => by
    obtain ⟨b, hb⟩ := h a (List.mem_cons_self _ _)
    obtain ⟨bs, hbs, hrel⟩ := mapExcept_ok_of_forall f l
      (fun a' ha' => h a' (List.mem_cons_of_mem _ ha'))
    exact ⟨b :: bs, by simp [mapExcept, hb, hbs], List.Forall₂.cons hb hrel⟩

/-- Every output element of a successful `mapExcept` is the image of an input
element. -/
theorem mapExcept_mem (f : α → Except ε β) :
    ∀ (l : List α) (bs : List β), mapExcept f l = .ok bs →
      ∀ b ∈ bs, ∃ a ∈ l, f a = .ok b
  | [], bs, h => by
    simp only [mapExcept, Except.ok.injEq] at h
    subst h
    simp
  | a :: l, bs, h => by
    simp only [mapExcept] at h
    split at h
    · cases h
    · rename_i b' hb'
      split at h
      · cases h
      · rename_i bs' hbs'
        simp only [Except.ok.injEq] at h
        subst h
        intro b hb
        rcases List.mem_cons.mp hb with rfl | hb
        · exact ⟨a, List.mem_cons_self _ _, hb'⟩
        · obtain ⟨a', ha', hfa⟩ := mapExcept_mem f l bs' hbs' b hb
          exact ⟨a', List.mem_cons_of_mem _ ha', hfa⟩

/-- Claim C6 (amended): in fallback mode, provided every candidate record in
scope carries a (non-null) embedding whose cosine similarity with the query
embedding is a number (not NaN — ruling out the null embeddings of degraded
chunks, which make the scan throw, and all-zero vectors, whose NaN scores the
sort comparator treats as ties), and the store maps each key to records
tagged with that key, `searchChunksFallback` succeeds with at most `limit`
results in non-increasing score order, and with a truthy `documentId` every
returned record belongs to that document. -/
theorem searchChunksFallback_amended (store : FallbackStore) (qe : List ℝ)
    (documentId : Option String) (limit : Nat)
    (hemb : ∀ r ∈ recordsInScope store documentId,
      ∃ v, r.embedding = some v ∧ ∃ x, cosineSimilarity qe v = JsNum.num x)
    (hwf : ∀ e ∈ store, ∀ rec ∈ e.2, rec.document_id = e.1) :
    ∃ results, searchChunksFallback store qe documentId limit = .ok results
      ∧ results.length ≤ limit
      ∧ List.Chain' (fun a b => ∃ x y, a.score = JsNum.num x
          ∧ b.score = JsNum.num y ∧ y ≤ x) results
      ∧ (∀ d, documentId = some d → d ≠ "" →
          ∀ r ∈ results, r.documentId = d) := by
  have hok : ∀ rec ∈ recordsInScope store documentId,
      ∃ b, scoreRecord qe rec = .ok b := by
    intro rec hrec
    obtain ⟨v, hv, -⟩ := hemb rec hrec
    exact ⟨{ content := rec.content, score := cosineSimilarity qe v,
             documentId := rec.document_id, chunkIndex := rec.chunk_index },
           by simp [scoreRecord, hv]⟩
  obtain ⟨bs, hbs, -⟩ :=
    mapExcept_ok_of_forall (scoreRecord qe) (recordsInScope store documentId) hok
  have hsearch : searchChunksFallback store qe documentId limit
      = .ok ((sortOrd (fun a b => cmpKeep a.score b.score) bs).take limit) := by
    simp [searchChunksFallback, hbs, Except.map]
  have hnum : ∀ b ∈ bs, ∃ x, b.score = JsNum.num x := by
    intro b hb
    obtain ⟨a, ha, hfa⟩ := mapExcept_mem (scoreRecord qe) _ bs hbs b hb
    obtain ⟨v, hv, x, hx⟩ := hemb a ha
    rw [scoreRecord, hv] at hfa
    simp only [Except.ok.injEq] at hfa
    subst hfa
    exact ⟨x, hx⟩
  refine ⟨_, hsearch, ?_, ?_, ?_⟩
  · exact List.length_take_le _ _
  · apply List.Chain'.take
    refine chain'_sortOrd _ _ (fun r => ∃ x, r.score = JsNum.num x)
      ?_ ?_ bs hnum
    · intro a b ⟨x, hx⟩ ⟨y, hy⟩ hle
      refine ⟨x, y, hx, hy, ?_⟩
      rw [hx, hy] at hle
      simpa [cmpKeep] using hle
    · intro a b ⟨x, hx⟩ ⟨y, hy⟩ hle
      refine ⟨y, x, hy, hx, ?_⟩
      rw [hx, hy] at hle
      simp only [cmpKeep, decide_eq_false_iff_not, not_le] at hle
      exact le_of_lt hle
  · intro d hd hdne r hr
    subst hd
    have hr' : r ∈ sortOrd (fun a b => cmpKeep a.score b.score) bs :=
      List.mem_of_mem_take hr
    have hrbs : r ∈ bs := mem_sortOrd _ _ _ hr'
    obtain ⟨a, ha, hfa⟩ := mapExcept_mem (scoreRecord qe) _ bs hbs r hrbs
    obtain ⟨v, hv, -⟩ := hemb a ha
    rw [scoreRecord, hv] at hfa
    simp only [Except.ok.injEq] at hfa
    subst hfa
    show a.document_id = d
    simp only [recordsInScope, List.mem_flatMap, List.mem_filter] at ha
    obtain ⟨e, ⟨hestore, hkeep⟩, harec⟩ := ha
    have he1 : e.1 = d := by
      simp only [scopeKeep, if_neg hdne] at hkeep
      exact eq_of_beq hkeep
    rw [hwf e hestore a harec, he1]

/-- Counterexample to claim C6 as stated: with a reachable store state — a
document whose chunk was stored in degraded mode with a null embedding — the
fallback search throws (reading `.length` of `null`) instead of returning a
result list. -/
theorem searchChunksFallback_counterexample :
    searchChunksFallback storeC6 [(1 : ℝ)] none 5 = .error ()
    ∧ ¬ ∃ results, searchChunksFallback storeC6 [(1 : ℝ)] none 5
        = .ok results := by
  have h : searchChunksFallback storeC6 [(1 : ℝ)] none 5 = .error () := rfl
  exact ⟨h, fun ⟨rs, hrs⟩ => by rw [h] at hrs; exact Except.noConfusion hrs⟩

/-- Witness for the amended C6 at a concrete one-record store with a present
embedding. -/
theorem searchChunksFallback_amended_witness :
    (∀ r ∈ recordsInScope storeC6w (some "d1"),
      ∃ v, r.embedding = some v
        ∧ ∃ x, cosineSimilarity [(1 : ℝ)] v = JsNum.num x)
    ∧ (∀ e ∈ storeC6w, ∀ rec ∈ e.2, rec.document_id = e.1)
    ∧ (∃ results, searchChunksFallback storeC6w [(1 : ℝ)] (some "d1") 5
          = .ok results
        ∧ results.length ≤ 5
        ∧ List.Chain' (fun a b => ∃ x y, a.score = JsNum.num x
            ∧ b.score = JsNum.num y ∧ y ≤ x) results
        ∧ (∀ d, (some "d1" : Option String) = some d → d ≠ "" →
            ∀ r ∈ results, r.documentId = d)) := by
  have hemb : ∀ r ∈ recordsInScope storeC6w (some "d1"),
      ∃ v, r.embedding = some v
        ∧ ∃ x, cosineSimilarity [(1 : ℝ)] v = JsNum.num x := by
    have hs : recordsInScope storeC6w (some "d1")
        = [{ content := "c", embedding := some [(1 : ℝ)], document_id := "d1",
             chunk_index := 0 }] := rfl
    intro r hr
    rw [hs] at hr
    simp only [List.mem_singleton] at hr
    subst hr
    refine ⟨[(1 : ℝ)], rfl, 1, ?_⟩
    simp [cosineSimilarity, jsDiv, Real.sqrt_one]
  have hwf : ∀ e ∈ storeC6w, ∀ rec ∈ e.2, rec.document_id = e.1 := by
    intro e he rec hrec
    simp only [storeC6w, List.mem_singleton] at he
    subst he
    simp only [List.mem_singleton] at hrec
    subst hrec
    rfl
  exact ⟨hemb, hwf,
    searchChunksFallback_amended storeC6w [(1 : ℝ)] (some "d1") 5 hemb hwf⟩

/-- After deleting the unique entry with key `d` from a store with distinct
keys, no remaining entry has key `d`. -/
theorem eraseP_key_not_mem (d : String) :
    ∀ store : FallbackStore, (store.map Prod.fst).Nodup →
      ∀ e ∈ store.eraseP (fun e => e.1 == d), e.1 ≠ d
  | [], _, e, he => by simp at he
  | (k, chs) :: rest, hnodup, e, he => by
    have hnodup' : (k :: rest.map Prod.fst).Nodup := by simpa using hnodup
    obtain ⟨hk1, hk2⟩ := List.nodup_cons.mp hnodup'
    by_cases hk : k = d
    · rw [List.eraseP_cons_of_pos (by simpa using hk)] at he
      intro hed
      apply hk1
      rw [hk, ← hed]
      exact List.mem_map_of_mem Prod.fst he
    · rw [List.eraseP_cons_of_neg (by simpa using hk)] at he
      rcases List.mem_cons.mp he with rfl | he
      · exact hk
      · exact eraseP_key_not_mem d rest hk2 e he

/-- Claim C7: in fallback mode, for any store with distinct keys and any
non-empty document id, a search restricted to that id right after
`deleteDocumentChunks` returns zero results, and the delete is a no-op when
no entry with that id exists. -/
theorem deleteDocumentChunks_search (store : FallbackStore) (qe : List ℝ)
    (documentId : String) (limit : Nat) (hne : documentId ≠ "")
    (hnodup : (store.map Prod.fst).Nodup) :
    searchChunksFallback (deleteDocumentChunks store documentId) qe
        (some documentId) limit = .ok []
    ∧ ((∀ e ∈ store, e.1 ≠ documentId) →
        deleteDocumentChunks store documentId = store) := by
  constructor
  · have hscope : recordsInScope (deleteDocumentChunks store documentId)
        (some documentId) = [] := by
      unfold recordsInScope
      rw [List.filter_eq_nil_iff.mpr ?_]
      · rfl
      · intro e he
        have := eraseP_key_not_mem documentId store hnodup e he
        simp [scopeKeep, if_neg hne, this]
    simp [searchChunksFallback, hscope, mapExcept, sortOrd, Except.map]
  · intro h
    exact List.eraseP_of_forall_not (fun e he => by simpa using h e he)

/-- Witness for C7 at a concrete two-document store. -/
theorem deleteDocumentChunks_search_witness :
    (("d1" : String) ≠ "" ∧ (storeC7.map Prod.fst).Nodup)
    ∧ (searchChunksFallback (deleteDocumentChunks storeC7 "d1") [(1 : ℝ)]
          (some "d1") 5 = .ok []
      ∧ ((∀ e ∈ storeC7, e.1 ≠ "d1") →
          deleteDocumentChunks storeC7 "d1" = storeC7)) :=
  ⟨⟨by decide, by decide⟩,
   deleteDocumentChunks_search storeC7 [(1 : ℝ)] "d1" 5 (by decide)
     (by decide)⟩

/-! ## Theorems: ingestion orchestrator (claims C3, C4) -/

/-- Claim C4: `processDocument` throws if and only if text extraction itself
fails or the extracted text is blank.  The quantification over the oracle
bundles `nlp` and `g` expresses that chunk-level embedding failures and
analyzer (subject/keyword/summary) failures never surface: the result is
`ok` whatever those oracles do, whenever extraction succeeds with non-blank
text. -/
theorem processDocument_error_iff (nlp : NlpOracles) (g : GeminiOracles)
    (now : String) (pdf txt docx img : Except String (List Char))
    (fileType : String) :
    (∃ e, processDocument nlp g now pdf txt docx img fileType = .error e)
    ↔ ((∃ e, extractText pdf txt docx img fileType = .error e)
        ∨ (∃ t, extractText pdf txt docx img fileType = .ok t
            ∧ (jsTrim t).length = 0)) := by
  unfold processDocument
  cases hx : extractText pdf txt docx img fileType with
  | error e => simp
  | ok t =>
    by_cases ht : (jsTrim t).length = 0
    · have h' : jsTrim t = [] := List.length_eq_zero.mp ht
      simp [ht, h']
    · have h' : jsTrim t ≠ [] := fun hh => ht (by rw [hh]; rfl)
      simp [ht, h']

/-- Claim C3: when extraction succeeds with non-blank text and embedding
generation fails for every chunk (every credential exhausted on every
chunk), `processDocument` still returns: it emits one processed chunk per
text chunk, with the same contents, each with `embedding = none` and
processing method flagged `'free'`, and with the document-level method also
`'free'`. -/
theorem processDocument_degraded (nlp : NlpOracles) (g : GeminiOracles)
    (now : String) (pdf txt docx img : Except String (List Char))
    (fileType : String) (t : List Char)
    (hok : extractText pdf txt docx img fileType = .ok t)
    (hne : (jsTrim t).length ≠ 0)
    (hfail : ∀ i, g.embed i = none) :
    ∃ res, processDocument nlp g now pdf txt docx img fileType = .ok res
      ∧ res.chunks.length = (chunkText nlp.sentTok t 1000 200).length
      ∧ res.chunks.map (fun c => c.content)
          = (chunkText nlp.sentTok t 1000 200).map Chunk.content
      ∧ (∀ c ∈ res.chunks, c.embedding = none
          ∧ c.metadata.processingMethod = "free")
      ∧ res.metadata.processingMethod = "free" := by
  have hchunk : ∀ p : Nat × Chunk, processChunk nlp g p.1 p.2
      = { content := p.2.content
          embedding := none
          keywords := extractKeywords nlp.wordTok p.2.content 10
          summary := generateSummary nlp.sentTok p.2.content 3
          metadata :=
            { chunkIndex := p.1, start := p.2.start, end_ := p.2.end_,
              length := p.2.length, sentences := p.2.sentences,
              processingMethod := "free" } } := by
    intro p
    unfold processChunk
    rw [hfail p.1]
  unfold processDocument
  rw [hok]
  dsimp only
  rw [if_neg hne]
  refine ⟨_, rfl, ?_, ?_, ?_, ?_⟩
  · simp
  · rw [List.map_map]
    have : ((fun c : ProcessedChunk => c.content) ∘
        fun p : Nat × Chunk => processChunk nlp g p.1 p.2)
        = fun p : Nat × Chunk => p.2.content := by
      funext p
      simp [hchunk p]
    rw [this]
    have henum : (chunkText nlp.sentTok t 1000 200).enum.map
        (fun p : Nat × Chunk => p.2.content)
        = ((chunkText nlp.sentTok t 1000 200).enum.map Prod.snd).map
            (fun c : Chunk => c.content) := by
      rw [List.map_map]
      rfl
    rw [henum, List.enum_map_snd]
  · intro c hc
    obtain ⟨p, -, rfl⟩ := List.mem_map.mp hc
    rw [hchunk p]
    exact ⟨rfl, rfl⟩
  · have hany : ((chunkText nlp.sentTok t 1000 200).enum.map
        (fun p => processChunk nlp g p.1 p.2)).any
          (fun c => c.metadata.processingMethod == "gemini") = false := by
      rw [List.any_eq_false]
      intro c hc
      obtain ⟨p, -, rfl⟩ := List.mem_map.mp hc
      rw [hchunk p]
      show ¬(("free" : String) == "gemini") = true
      decide
    simp only [hany]
    rfl

/-- Witness for C3 at a concrete one-chunk text document with every
embedding call failing. -/
theorem processDocument_degraded_witness :
    (extractText (.error "x") (.ok textC3) (.error "x") (.error "x") "txt"
        = .ok textC3
      ∧ (jsTrim textC3).length ≠ 0
      ∧ (∀ i, gC3.embed i = none))
    ∧ (∃ res, processDocument nlpC3 gC3 "now" (.error "x") (.ok textC3)
          (.error "x") (.error "x") "txt" = .ok res
        ∧ res.chunks.length = (chunkText nlpC3.sentTok textC3 1000 200).length
        ∧ res.chunks.map (fun c => c.content)
            = (chunkText nlpC3.sentTok textC3 1000 200).map Chunk.content
        ∧ (∀ c ∈ res.chunks, c.embedding = none
            ∧ c.metadata.processingMethod = "free")
        ∧ res.metadata.processingMethod = "free") :=
  ⟨⟨rfl, by decide, fun _ => rfl⟩,
   processDocument_degraded nlpC3 gC3 "now" (.error "x") (.ok textC3)
     (.error "x") (.error "x") "txt" textC3 rfl (by decide) (fun _ => rfl)⟩
